import Mathlib

/-!
Verification of the Grimoire FB2 reader core.

Shallow embedding of the repository's core logic:

* `src/fb2_utils.py` — FB2 metadata extraction (`parse_fb2_book_info`,
  `extract_fb2_title`) over an `xml.etree.ElementTree`-style document model.
* `src/main.py` — the pagination engine (`MainWindow.paginate_current_text`),
  page navigation (`go_to_page`, `go_next_page`, `go_prev_page`) and the
  resize handler (`on_reader_resized`).

Strings are modelled as `List Char`; machine floats used for the progress
ratio are modelled as exact rationals (`ℚ`), with Python's `round`
(banker's rounding, ties to even) modelled exactly by `pythonRound`.
`int(capacity * 0.8)` is modelled as `capacity * 4 / 5` (floor division),
which agrees with the float computation for all viewport-sized capacities.
-/

set_option maxRecDepth 100000

abbrev Str := List Char

/-- Python `str.isspace` characters relevant to `str.strip()`:
space, tab, newline, carriage return, vertical tab, form feed. -/
def isPySpace (c : Char) : Bool :=
  c == ' ' || c == '\t' || c == '\n' || c == '\r' ||
  c == Char.ofNat 11 || c == Char.ofNat 12

/-- Python `str.strip()`: remove whitespace from both ends. -/
def pyStrip (s : Str) : Str :=
  ((s.dropWhile isPySpace).reverse.dropWhile isPySpace).reverse

/-- Index of the last element satisfying `p`, if any. -/
def lastIdxP (p : Char → Bool) : Str → Option ℕ
  | [] => none
  | c :: rest =>
    match lastIdxP p rest with
    | some j => some (j + 1)
    | none => if p c then some 0 else none

/-- `os.path.basename` on a POSIX path: everything after the last `/`. -/
def pyBasename (p : Str) : Str :=
  (p.reverse.takeWhile (fun c => c != '/')).reverse

/-- The stem of `os.path.splitext(os.path.basename(p))`: the base name with
its extension stripped.  Python splits at the last dot of the base name
unless every character before that dot is itself a dot. -/
def pyStem (p : Str) : Str :=
  let b := pyBasename p
  match lastIdxP (fun c => c == '.') b with
  | none => b
  | some d => if (b.take d).any (fun c => c != '.') then b.take d else b

/-! ## The XML document model (`xml.etree.ElementTree`)

An element has a tag, attributes, the text before its first child
(`.text`), its children, and the text following it inside its parent
(`.tail`), exactly as in `ElementTree`. -/

inductive Elem : Type where
  | mk (tag : Str) (attrs : List (Str × Str)) (text : Str)
       (children : List Elem) (tail : Str)

def Elem.tag : Elem → Str
  | .mk t _ _ _ _ => t

def Elem.attrs : Elem → List (Str × Str)
  | .mk _ a _ _ _ => a

def Elem.text : Elem → Str
  | .mk _ _ tx _ _ => tx

def Elem.children : Elem → List Elem
  | .mk _ _ _ cs _ => cs

def Elem.tail : Elem → Str
  | .mk _ _ _ _ tl => tl

mutual
/-- `ElementTree.Element.itertext()` concatenated: the element's own text,
then for each child its `itertext` followed by its tail. -/
def itertext : Elem → Str
  | .mk _ _ tx cs _ => tx ++ itertextList cs

def itertextList : List Elem → Str
  | [] => []
  | c :: rest => itertext c ++ c.tail ++ itertextList rest
end

mutual
/-- `ElementTree.Element.iter()`: the element and all descendants in
document order. -/
def iterElems : Elem → List Elem
  | .mk t a tx cs tl => .mk t a tx cs tl :: iterElemsList cs

def iterElemsList : List Elem → List Elem
  | [] => []
  | c :: rest => iterElems c ++ iterElemsList rest
end

/-- `_local_name` of `src/fb2_utils.py`: `tag.split('}', 1)[-1]`. -/
def localName (t : Str) : Str :=
  let rest := t.dropWhile (fun c => c != '}')
  if rest.isEmpty then t else rest.drop 1

/-- `_find_first_child`: first direct child with the given local name. -/
def findFirstChild (e : Elem) (name : Str) : Option Elem :=
  e.children.find? (fun c => localName c.tag == name)

/-- `_iter_children_with_name`: all direct children with the given
local name, in source order. -/
def childrenNamed (e : Elem) (name : Str) : List Elem :=
  e.children.filter (fun c => localName c.tag == name)

/-- `Element.attrib.get(k)`. -/
def attrGet (e : Elem) (k : Str) : Option Str :=
  (e.attrs.find? (fun p => p.1 == k)).map (·.2)

/-- `_elem_text`: full text content of an element, nested markup
included. -/
def elemText (e : Elem) : Str := itertext e

/-- Tag and attribute names used by the extractor, as character lists. -/
def nmDescription : Str := "description".toList

def nmTitleInfo : Str := "title-info".toList

def nmBookTitle : Str := "book-title".toList

def nmPublishInfo : Str := "publish-info".toList

def nmAuthor : Str := "author".toList

def nmFirstName : Str := "first-name".toList

def nmMiddleName : Str := "middle-name".toList

def nmLastName : Str := "last-name".toList

def nmGenre : Str := "genre".toList

def nmLang : Str := "lang".toList

def nmPublisher : Str := "publisher".toList

def nmYear : Str := "year".toList

def nmDate : Str := "date".toList

def nmAnnotation : Str := "annotation".toList

def nmCoverpage : Str := "coverpage".toList

def nmImage : Str := "image".toList

def nmHref : Str := "href".toList

def nmXlinkHref : Str := "\x7bhttp://www.w3.org/1999/xlink\x7dhref".toList

def nmBody : Str := "body".toList

def nmP : Str := "p".toList

def nmBinary : Str := "binary".toList

def nmId : Str := "id".toList

def sepBlank : Str := "\n\n".toList

def sepSpace : Str := " ".toList

/-! ## Base64 decoding (`base64.b64decode`)

Values of the standard alphabet; characters outside the alphabet are
discarded (Python's lenient default), `=` is padding.  Decoding fails —
`none`, Python raises `binascii.Error` — when the padded length is not a
multiple of four, when padding appears other than as at most two trailing
characters. -/

def b64val (c : Char) : Option ℕ :=
  let n := c.toNat
  if 65 ≤ n ∧ n ≤ 90 then some (n - 65)
  else if 97 ≤ n ∧ n ≤ 122 then some (n - 71)
  else if 48 ≤ n ∧ n ≤ 57 then some (n + 4)
  else if c = '+' then some 62
  else if c = '/' then some 63
  else none

def b64bytes : List ℕ → List ℕ
  | a :: b :: c :: d :: rest =>
    (a * 4 + b / 16) :: ((b % 16) * 16 + c / 4) :: ((c % 4) * 64 + d) ::
      b64bytes rest
  | [a, b, c] => [a * 4 + b / 16, (b % 16) * 16 + c / 4]
  | [a, b] => [a * 4 + b / 16]
  | _ => []

def b64decode (s : Str) : Option (List ℕ) :=
  let cs := s.filter (fun c => (b64val c).isSome || c == '=')
  let pads := (cs.reverse.takeWhile (fun c => c == '=')).length
  let dataChars := cs.take (cs.length - pads)
  if cs.length % 4 = 0 ∧ pads ≤ 2 ∧ dataChars.all (fun c => (b64val c).isSome)
  then some (b64bytes (dataChars.filterMap b64val))
  else none

/-! ## The book record (`BookInfo` of `src/fb2_utils.py`) -/

structure BookInfo where
  title : Option Str := none
  authors : List Str := []
  genres : List Str := []
  publisher : Option Str := none
  date : Option Str := none
  lang : Option Str := none
  description : Option Str := none
  cover_bytes : Option (List ℕ) := none
  full_text : Option Str := none
deriving DecidableEq, Repr

/-- The trimmed text of an element when non-empty, else `none` — the
recurring `txt = _elem_text(e).strip(); if txt:` pattern. -/
def nonemptyText (e : Elem) : Option Str :=
  let t := pyStrip (elemText e)
  if t.isEmpty then none else some t

/-- `extract_fb2_title` of `src/fb2_utils.py`.  `parsed` is the result of
`ET.parse`: `none` models a parse exception. -/
def extract_fb2_title (path : Str) (parsed : Option Elem) : Str :=
  match parsed with
  | none => pyStem path
  | some root =>
    match findFirstChild root nmDescription with
    | none => pyStem path
    | some d =>
      match findFirstChild d nmTitleInfo with
      | none => pyStem path
      | some ti =>
        match findFirstChild ti nmBookTitle with
        | none => pyStem path
        | some bt =>
          match nonemptyText bt with
          | some t => t
          | none => pyStem path

/-- One author's display name: trimmed first/middle/last name parts in
that order, empty parts skipped, joined with single spaces; `none` when
the joined name is empty (the author is then omitted). -/
def authorName (a : Elem) : Option Str :=
  let parts :=
    ([findFirstChild a nmFirstName,
      findFirstChild a nmMiddleName,
      findFirstChild a nmLastName].filterMap id).map
      (fun e => pyStrip (elemText e))
  let name := List.intercalate sepSpace (parts.filter (fun p => !p.isEmpty))
  if name.isEmpty then none else some name

/-- The non-empty trimmed texts of all descendant `p` elements of `e`
(`e` itself included in the scan, as `Element.iter()` does). -/
def paragraphsUnder (e : Elem) : List Str :=
  (iterElems e).filterMap (fun x =>
    if localName x.tag == nmP then nonemptyText x else none)

/-- `parse_fb2_book_info` of `src/fb2_utils.py`.  `parsed` is the result
of `ET.parse`: `none` models a parse exception, in which case only the
filename-derived title is set. -/
def parse_fb2_book_info (path : Str) (parsed : Option Elem) : BookInfo :=
  match parsed with
  | none => { title := some (pyStem path) }
  | some root =>
    let description := findFirstChild root nmDescription
    let title_info := description.bind
      (fun d => findFirstChild d nmTitleInfo)
    let publish_info := description.bind
      (fun d => findFirstChild d nmPublishInfo)
    let titleTxt : Option Str := title_info.bind (fun ti =>
      (findFirstChild ti nmBookTitle).bind nonemptyText)
    let title := some (titleTxt.getD (pyStem path))
    let authors := match title_info with
      | none => []
      | some ti => (childrenNamed ti nmAuthor).filterMap authorName
    let genres := match title_info with
      | none => []
      | some ti => (childrenNamed ti nmGenre).filterMap nonemptyText
    let lang := title_info.bind (fun ti =>
      (findFirstChild ti nmLang).bind nonemptyText)
    let publisher := publish_info.bind (fun pi =>
      (findFirstChild pi nmPublisher).bind nonemptyText)
    let dateFromPublish := publish_info.bind (fun pi =>
      (findFirstChild pi nmYear).bind nonemptyText)
    let date := match dateFromPublish with
      | some d => some d
      | none => title_info.bind (fun ti =>
          (findFirstChild ti nmDate).bind nonemptyText)
    let descriptionText := title_info.bind (fun ti =>
      (findFirstChild ti nmAnnotation).bind (fun ann =>
        let paras := paragraphsUnder ann
        if paras.isEmpty then none
        else some (List.intercalate sepBlank paras)))
    let cover_id : Option Str := title_info.bind (fun ti =>
      (findFirstChild ti nmCoverpage).bind (fun cp =>
        (findFirstChild cp nmImage).bind (fun img =>
          let href := match attrGet img nmHref with
            | some h =>
              if h.isEmpty
              then attrGet img nmXlinkHref
              else some h
            | none =>
              attrGet img nmXlinkHref
          href.bind (fun h =>
            if h.isEmpty then none
            else
              let cid := h.dropWhile (fun c => c == '#')
              if cid.isEmpty then none else some cid))))
    let cover_bytes := cover_id.bind (fun cid =>
      ((iterElems root).find? (fun e =>
          localName e.tag == nmBinary && attrGet e nmId == some cid)).bind
        (fun binEl =>
          let data := pyStrip (elemText binEl)
          if data.isEmpty then none else b64decode data))
    let paragraphs :=
      (root.children.filter (fun b => localName b.tag == nmBody)).flatMap
        paragraphsUnder
    let full_text :=
      if paragraphs.isEmpty then none
      else some (List.intercalate sepBlank paragraphs)
    { title := title, authors := authors, genres := genres,
      publisher := publisher, date := date, lang := lang,
      description := descriptionText, cover_bytes := cover_bytes,
      full_text := full_text }

/-! ## Pagination (`MainWindow.paginate_current_text` of `src/main.py`)

The progress ratio, a Python float in the source, is modelled as an exact
rational.  Python's `round` is banker's rounding: ties go to the even
integer. -/

/-- `⌊q⌋` computed so that the kernel can evaluate it: floor division of
the numerator by the (positive) denominator. -/
def ratFloor (q : ℚ) : ℤ := q.num.fdiv q.den

/-- Python 3 `round` to an integer: nearest integer, ties to even. -/
def pythonRound (q : ℚ) : ℤ :=
  let f := ratFloor q
  if q - f < 1 / 2 then f
  else if 1 / 2 < q - f then f + 1
  else if f % 2 = 0 then f else f + 1

/-- `max(0.0, min(1.0, ratio))`. -/
def clamp01 (q : ℚ) : ℚ := max 0 (min 1 q)

/-- Capacity estimation of `paginate_current_text`:
`width = max(1, viewport.width())`, `height = max(1, viewport.height())`,
`avg_char_w = max(1, fm.averageCharWidth())`,
`line_h = max(1, fm.lineSpacing())`,
`capacity = max(20, width // avg_char_w) * max(3, height // line_h)`. -/
def computeCapacity (vw vh acw lh : ℤ) : ℕ :=
  let width := (max 1 vw).toNat
  let height := (max 1 vh).toNat
  let avg_char_w := (max 1 acw).toNat
  let line_h := (max 1 lh).toNat
  max 20 (width / avg_char_w) * max 3 (height / line_h)

/-- `text.rfind(" ", a, b)`: index of the last space in `[a, b)`, as an
`Option` instead of Python's `-1` sentinel. -/
def rfindSpace (text : Str) (a b : ℕ) : Option ℕ :=
  (lastIdxP (fun c => c == ' ') ((text.drop a).take (b - a))).map (· + a)

/-- One iteration's split position: `end = min(i + capacity, n)`,
`split_from = min(n, i + int(capacity * 0.8))` — the float product
`capacity * 0.8` truncates to `capacity * 4 / 5` for every feasible
capacity — then the last space in `[split_from, end)` if it lies
strictly beyond `i`, else `end` (forced break). -/
def splitPosOf (text : Str) (capacity i : ℕ) : ℕ :=
  match rfindSpace text (min text.length (i + capacity * 4 / 5))
      (min (i + capacity) text.length) with
  | some p => if p ≤ i then min (i + capacity) text.length else p
  | none => min (i + capacity) text.length

/-- The body of the `while i < n` splitting loop, structurally recursive
on a fuel bound.  One iteration emits `text[i:split_pos].strip()` and
advances `i` to `split_pos`; since every iteration with `0 < capacity`
advances `i` by at least one (see `splitPosOf_gt`), fuel
`text.length - i + 1` is always sufficient (`splitLoopFuel_congr`). -/
def splitLoopFuel (text : Str) (capacity : ℕ) : ℕ → ℕ → List Str
  | 0, _ => []
  | fuel + 1, i =>
    if i < text.length ∧ 0 < capacity then
      pyStrip ((text.drop i).take (splitPosOf text capacity i - i)) ::
        splitLoopFuel text capacity fuel (splitPosOf text capacity i)
    else []

/-- The page-splitting loop of `paginate_current_text` started at index
`i`.  The source loop is `while i < n` with `capacity ≥ 60` guaranteed at
the call site; the `0 < capacity` test inside `splitLoopFuel` is the
termination guard making that explicit (with `capacity = 0` the source
loop would not advance at all). -/
def splitLoop (text : Str) (capacity : ℕ) (i : ℕ) : List Str :=
  splitLoopFuel text capacity (text.length - i + 1) i

/-- A `PageSet`: the ordered page texts plus the current page index, the
post-state `(self.pages, self.current_page_index)` of the reader. -/
structure PageSet where
  pages : List Str
  idx : ℕ
deriving DecidableEq, Repr

/-- `paginate_current_text` followed by the index clamp of
`show_current_page`: splits the full text (one empty page when the text
is absent or empty), clamps the ratio, and derives the current page index
as `int(round(ratio * (len(pages) - 1)))` (`0` for a single page). -/
def paginate_current_text (fullText : Option Str) (vw vh acw lh : ℤ)
    (r : ℚ) : PageSet :=
  match fullText with
  | none => ⟨[[]], 0⟩
  | some text =>
    if text.isEmpty then ⟨[[]], 0⟩
    else
      let capacity := computeCapacity vw vh acw lh
      let pages0 := splitLoop text capacity 0
      let pages := if pages0.isEmpty then [[]] else pages0
      let idxRaw : ℕ :=
        if pages.length = 1 then 0
        else (pythonRound (clamp01 r * (pages.length - 1))).toNat
      ⟨pages, min idxRaw (pages.length - 1)⟩

/-- The ratio reported by `show_current_page` and stored into
`book_progress`: `0.0` for a single page, else `idx / (len(pages) - 1)`
with the index clamped into range first. -/
def shownProgress (ps : PageSet) : ℚ :=
  if ps.pages.length ≤ 1 then 0
  else (min ps.idx (ps.pages.length - 1) : ℚ) / (ps.pages.length - 1)

/-- `go_to_page` of `src/main.py`: clamp the requested index into
`[0, total - 1]` and make it current (guard: no pages, no change). -/
def go_to_page (ps : PageSet) (pageIndex : ℤ) : PageSet :=
  if ps.pages.isEmpty then ps
  else ⟨ps.pages, (max 0 (min pageIndex ((ps.pages.length : ℤ) - 1))).toNat⟩

/-- `go_next_page`: delegates to `go_to_page(current + 1)`. -/
def go_next_page (ps : PageSet) : PageSet := go_to_page ps ((ps.idx : ℤ) + 1)

/-- `go_prev_page`: delegates to `go_to_page(current - 1)`. -/
def go_prev_page (ps : PageSet) : PageSet := go_to_page ps ((ps.idx : ℤ) - 1)

/-- The reader session state that `on_reader_resized` consults: the open
book's full text, the current page set, and the persisted progress ratio
(`book_progress[abs_path]`). -/
structure ReaderState where
  fullText : Option Str
  pageSet : PageSet
  storedProgress : ℚ

/-- `on_reader_resized`: re-paginate from the *stored* ratio; the
previous page index in `pageSet` is not consulted. -/
def on_reader_resized (s : ReaderState) (vw vh acw lh : ℤ) : PageSet :=
  paginate_current_text s.fullText vw vh acw lh s.storedProgress

/-! ## Spec-side definitions

These restate what the specification's sentences say, independently of
the embedding above, so that the claims can be checked against them. -/

/-- `j` is the position of the last space of `text` in the half-open
window `[a, b)` (the window `rfind` is asked to search). -/
def IsLastSpaceIn (text : Str) (a b j : ℕ) : Prop :=
  a ≤ j ∧ j < b ∧ text.get? j = some ' ' ∧
    ∀ k, j < k → k < b → text.get? k ≠ some ' '

/-- Every descendant `p` element of every direct child of the document
root whose local name is `body`, in document order. -/
def bodyParagraphElems (root : Elem) : List Elem :=
  (root.children.filter (fun b => localName b.tag == nmBody)).flatMap
    (fun b => (iterElems b).filter (fun e => localName e.tag == nmP))

/-- The claim's full text verbatim: the blank-line join of the trimmed
text content of *every* descendant `p` element of every body, absent
when zero paragraphs are found. -/
def claimedFullText (root : Elem) : Option Str :=
  let paras := (bodyParagraphElems root).map (fun e => pyStrip (elemText e))
  if paras.isEmpty then none
  else some (List.intercalate sepBlank paras)

/-- The full text as the code computes it, stated spec-side: the
blank-line join of the *non-empty* trimmed texts of the descendant `p`
elements of all bodies, absent when no non-empty paragraph exists. -/
def specFullText (root : Elem) : Option Str :=
  let paras := ((bodyParagraphElems root).map
      (fun e => pyStrip (elemText e))).filter (fun t => !t.isEmpty)
  if paras.isEmpty then none
  else some (List.intercalate sepBlank paras)

/-- Strip exactly one leading `#`, as the claim's words describe
(the code's `lstrip("#")` instead strips every leading `#`). -/
def stripOneLeadingHash (s : Str) : Str :=
  if s.take 1 = ['#'] then s.drop 1 else s

/-- The `title-info/coverpage/image` reference attribute: the unprefixed
`href` when present and non-empty, else the XLink-namespaced `href`
(Python's `attrib.get("href") or attrib.get("{xlink}href")`). -/
def coverHrefOf (root : Elem) : Option Str :=
  (findFirstChild root nmDescription).bind (fun d =>
    (findFirstChild d nmTitleInfo).bind (fun ti =>
      (findFirstChild ti nmCoverpage).bind (fun cp =>
        (findFirstChild cp nmImage).bind (fun img =>
          match attrGet img nmHref with
          | some h =>
            if h.isEmpty
            then attrGet img nmXlinkHref
            else some h
          | none =>
            attrGet img nmXlinkHref))))

/-- The first `binary` element in document order whose `id` attribute
equals `cid`. -/
def firstBinaryWithId (root : Elem) (cid : Str) : Option Elem :=
  (iterElems root).find? (fun e =>
    localName e.tag == nmBinary && attrGet e nmId == some cid)

/-- The claim's cover procedure verbatim: strip *one* leading `#` from
the reference, resolve against the first matching `binary`, decode its
base64 text. -/
def claimedCoverImage (root : Elem) : Option (List ℕ) :=
  (coverHrefOf root).bind (fun h =>
    (firstBinaryWithId root (stripOneLeadingHash h)).bind (fun b =>
      b64decode (pyStrip (elemText b))))

/-- The cover as the code computes it, stated spec-side: require a
non-empty reference, strip *all* leading `#` characters, require the
result non-empty, resolve against the first matching `binary`, and
decode its trimmed base64 text only when that text is non-empty. -/
def specCoverImage (root : Elem) : Option (List ℕ) :=
  (coverHrefOf root).bind (fun h =>
    if h.isEmpty then none
    else
      let cid := h.dropWhile (fun c => c == '#')
      if cid.isEmpty then none
      else
        (firstBinaryWithId root cid).bind (fun b =>
          let data := pyStrip (elemText b)
          if data.isEmpty then none else b64decode data))

/-! ## Concrete sample documents used in the counterexamples -/

/-- A document whose single body holds one whitespace-only paragraph and
one paragraph "A". -/
def emptyParaDoc : Elem :=
  .mk "FictionBook".toList [] [] [
    .mk nmBody [] [] [
      .mk nmP [] "   ".toList [] [],
      .mk nmP [] "A".toList [] []] []] []

/-- A document with two body sections holding paragraphs "A","B" and
"C","D" respectively. -/
def twoBodyDoc : Elem :=
  .mk "FictionBook".toList [] [] [
    .mk nmBody [] [] [
      .mk nmP [] "A".toList [] [],
      .mk nmP [] "B".toList [] []] [],
    .mk nmBody [] [] [
      .mk nmP [] "C".toList [] [],
      .mk nmP [] "D".toList [] []] []] []

/-- A document whose cover image reference is `##c` while a `binary`
element with id `#c` and valid base64 content `QQ==` exists. -/
def doubleHashDoc : Elem :=
  .mk "FictionBook".toList [] [] [
    .mk nmDescription [] [] [
      .mk nmTitleInfo [] [] [
        .mk nmCoverpage [] [] [
          .mk nmImage [(nmHref, "##c".toList)] [] [] []] []] []] [],
    .mk nmBinary [(nmId, "#c".toList)] "QQ==".toList [] []] []

/-! ## Helper lemmas -/

theorem lastIdxP_lt_length {p : Char → Bool} {l : Str} {j : ℕ}
    (h : lastIdxP p l = some j) : j < l.length := by
  induction l generalizing j with
  | nil => simp [lastIdxP] at h
  | cons c rest ih =>
    unfold lastIdxP at h
    cases hr : lastIdxP p rest with
    | some k =>
      rw [hr] at h
      simp only [Option.some.injEq] at h
      have := ih hr
      simp only [List.length_cons]
      omega
    | none =>
      rw [hr] at h
      by_cases hc : p c = true
      · simp only [hc, if_true, Option.some.injEq] at h
        simp only [List.length_cons]
        omega
      · simp [hc] at h

theorem lastIdxP_none {p : Char → Bool} {l : Str}
    (h : lastIdxP p l = none) :
    ∀ k c, l.get? k = some c → p c = false := by
  induction l with
  | nil => intro k c hk; simp at hk
  | cons a rest ih =>
    unfold lastIdxP at h
    cases hr : lastIdxP p rest with
    | some m => rw [hr] at h; exact absurd h (by simp)
    | none =>
      rw [hr] at h
      by_cases hc : p a = true
      · simp [hc] at h
      · intro k c hk
        match k with
        | 0 =>
          simp only [List.get?_cons_zero, Option.some.injEq] at hk
          subst hk
          simpa using hc
        | k + 1 =>
          exact ih hr k c (by simpa using hk)

theorem lastIdxP_spec {p : Char → Bool} {l : Str} {j : ℕ}
    (h : lastIdxP p l = some j) :
    (∃ c, l.get? j = some c ∧ p c = true) ∧
      ∀ k c, j < k → l.get? k = some c → p c = false := by
  induction l generalizing j with
  | nil => simp [lastIdxP] at h
  | cons a rest ih =>
    unfold lastIdxP at h
    cases hr : lastIdxP p rest with
    | some m =>
      rw [hr] at h
      simp only [Option.some.injEq] at h
      subst h
      obtain ⟨⟨c, hc, hpc⟩, hmax⟩ := ih hr
      refine ⟨⟨c, by simpa using hc, hpc⟩, ?_⟩
      intro k d hk hd
      match k with
      | 0 => omega
      | k + 1 => exact hmax k d (by omega) (by simpa using hd)
    | none =>
      rw [hr] at h
      by_cases hc : p a = true
      · simp only [hc, if_true, Option.some.injEq] at h
        subst h
        refine ⟨⟨a, by simp, hc⟩, ?_⟩
        intro k d hk hd
        match k with
        | 0 => omega
        | k + 1 => exact lastIdxP_none hr k d (by simpa using hd)
      · simp [hc] at h

theorem rfindSpace_mem {text : Str} {a b p : ℕ}
    (h : rfindSpace text a b = some p) : a ≤ p ∧ p < b := by
  unfold rfindSpace at h
  obtain ⟨j, hl, hp⟩ := Option.map_eq_some'.mp h
  have hj := lastIdxP_lt_length hl
  have hlen : ((text.drop a).take (b - a)).length ≤ b - a :=
    List.length_take_le _ _
  omega

theorem rfindSpace_isLastSpace {text : Str} {a b p : ℕ}
    (h : rfindSpace text a b = some p) : IsLastSpaceIn text a b p := by
  obtain ⟨hap, hpb⟩ := rfindSpace_mem h
  unfold rfindSpace at h
  obtain ⟨j, hl, hp⟩ := Option.map_eq_some'.mp h
  obtain ⟨⟨c, hc, hpc⟩, hmax⟩ := lastIdxP_spec hl
  have hj := lastIdxP_lt_length hl
  have hjb : j < b - a := lt_of_lt_of_le hj (List.length_take_le _ _)
  have hcj : text.get? (a + j) = some c := by
    rw [← List.get?_drop, ← List.get?_take hjb]
    exact hc
  have hcsp : c = ' ' := by
    have := hpc
    simp only [beq_iff_eq] at this
    exact this
  subst hcsp
  refine ⟨hap, hpb, by rw [← hp, Nat.add_comm]; exact hcj, ?_⟩
  intro k hk hkb hsp
  have hka : a ≤ k := by omega
  have hkja : k - a < b - a := by omega
  have : ((text.drop a).take (b - a)).get? (k - a) = some ' ' := by
    rw [List.get?_take hkja, List.get?_drop]
    rw [show a + (k - a) = k by omega]
    exact hsp
  have := hmax (k - a) ' ' (by omega) this
  simp at this

theorem rfindSpace_none {text : Str} {a b : ℕ}
    (h : rfindSpace text a b = none) :
    ∀ k, a ≤ k → k < b → text.get? k ≠ some ' ' := by
  intro k hak hkb hsp
  unfold rfindSpace at h
  rw [Option.map_eq_none'] at h
  have hkja : k - a < b - a := by omega
  have : ((text.drop a).take (b - a)).get? (k - a) = some ' ' := by
    rw [List.get?_take hkja, List.get?_drop]
    rw [show a + (k - a) = k by omega]
    exact hsp
  have := lastIdxP_none h (k - a) ' ' this
  simp at this

theorem splitPosOf_gt {text : Str} {capacity i : ℕ}
    (hi : i < text.length) (hc : 0 < capacity) :
    i < splitPosOf text capacity i := by
  unfold splitPosOf
  cases hr : rfindSpace text (min text.length (i + capacity * 4 / 5))
      (min (i + capacity) text.length) with
  | none => simp only []; omega
  | some p =>
    have := rfindSpace_mem hr
    simp only []
    split <;> omega

theorem splitPosOf_le {text : Str} {capacity i : ℕ} :
    splitPosOf text capacity i ≤ min (i + capacity) text.length := by
  unfold splitPosOf
  cases hr : rfindSpace text (min text.length (i + capacity * 4 / 5))
      (min (i + capacity) text.length) with
  | none => simp only []; omega
  | some p =>
    have := rfindSpace_mem hr
    simp only []
    split <;> omega

theorem splitLoopFuel_congr (text : Str) (capacity : ℕ) :
    ∀ f₁ f₂ i, text.length - i < f₁ → text.length - i < f₂ →
      splitLoopFuel text capacity f₁ i = splitLoopFuel text capacity f₂ i := by
  intro f₁
  induction f₁ with
  | zero => intro f₂ i h₁ h₂; omega
  | succ f₁ ih =>
    intro f₂ i h₁ h₂
    match f₂, h₂ with
    | f₂ + 1, h₂ =>
      simp only [splitLoopFuel]
      by_cases hg : i < text.length ∧ 0 < capacity
      · simp only [hg, if_true]
        have hlt := splitPosOf_gt hg.1 hg.2
        have := ih f₂ (splitPosOf text capacity i) (by omega) (by omega)
        rw [this]
      · simp only [hg, if_false]

theorem splitLoop_step {text : Str} {capacity i : ℕ}
    (hi : i < text.length) (hc : 0 < capacity) :
    splitLoop text capacity i =
      pyStrip ((text.drop i).take (splitPosOf text capacity i - i)) ::
        splitLoop text capacity (splitPosOf text capacity i) := by
  have hsp := splitPosOf_gt hi hc
  have tail_eq : splitLoopFuel text capacity (text.length - i)
        (splitPosOf text capacity i) =
      splitLoopFuel text capacity
        (text.length - splitPosOf text capacity i + 1)
        (splitPosOf text capacity i) :=
    splitLoopFuel_congr text capacity (text.length - i)
      (text.length - splitPosOf text capacity i + 1)
      (splitPosOf text capacity i) (by omega) (by omega)
  unfold splitLoop
  simp only [splitLoopFuel]
  rw [if_pos (And.intro hi hc), tail_eq]
  rfl

theorem splitLoop_stop {text : Str} {capacity i : ℕ}
    (h : ¬(i < text.length ∧ 0 < capacity)) :
    splitLoop text capacity i = [] := by
  unfold splitLoop
  have h1 : text.length - i + 1 = (text.length - i) + 1 := rfl
  rw [h1]
  simp only [splitLoopFuel, h, if_false]

theorem pyStrip_length_le (s : Str) : (pyStrip s).length ≤ s.length := by
  unfold pyStrip
  have h1 : ∀ (l : Str), (l.dropWhile isPySpace).length ≤ l.length :=
    fun l => List.Sublist.length_le (List.dropWhile_sublist isPySpace)
  calc ((s.dropWhile isPySpace).reverse.dropWhile isPySpace).reverse.length
      = ((s.dropWhile isPySpace).reverse.dropWhile isPySpace).length := by
        rw [List.length_reverse]
    _ ≤ (s.dropWhile isPySpace).reverse.length := h1 _
    _ = (s.dropWhile isPySpace).length := by rw [List.length_reverse]
    _ ≤ s.length := h1 _

theorem splitLoop_page_length (text : Str) (capacity : ℕ) :
    ∀ fuel i pg, pg ∈ splitLoopFuel text capacity fuel i →
      pg.length ≤ capacity := by
  intro fuel
  induction fuel with
  | zero => intro i pg hpg; simp [splitLoopFuel] at hpg
  | succ fuel ih =>
    intro i pg hpg
    simp only [splitLoopFuel] at hpg
    by_cases hg : i < text.length ∧ 0 < capacity
    · rw [if_pos hg] at hpg
      rcases List.mem_cons.mp hpg with hhd | htl
      · subst hhd
        have h1 := pyStrip_length_le ((text.drop i).take (splitPosOf text capacity i - i))
        have h2 : ((text.drop i).take (splitPosOf text capacity i - i)).length ≤
            splitPosOf text capacity i - i := List.length_take_le _ _
        have h3 := @splitPosOf_le text capacity i
        omega
      · exact ih _ _ htl
    · rw [if_neg hg] at hpg
      simp at hpg

theorem splitLoop_count_le (text : Str) (capacity : ℕ) :
    ∀ fuel i, (splitLoopFuel text capacity fuel i).length ≤ text.length - i := by
  intro fuel
  induction fuel with
  | zero => intro i; simp [splitLoopFuel]
  | succ fuel ih =>
    intro i
    simp only [splitLoopFuel]
    by_cases hg : i < text.length ∧ 0 < capacity
    · rw [if_pos hg]
      have hlt := splitPosOf_gt hg.1 hg.2
      have := ih (splitPosOf text capacity i)
      simp only [List.length_cons]
      omega
    · rw [if_neg hg]
      simp only [List.length_nil]
      omega

theorem ratFloor_eq (q : ℚ) : ratFloor q = ⌊q⌋ := by
  rw [Rat.floor_def, ratFloor, Int.fdiv_eq_ediv _ (by positivity)]

theorem pythonRound_nonneg {q : ℚ} (h : 0 ≤ q) : 0 ≤ pythonRound q := by
  unfold pythonRound
  have hf : (0:ℤ) ≤ ratFloor q := by
    rw [ratFloor_eq]
    exact Int.floor_nonneg.mpr h
  dsimp only
  split
  · exact hf
  · split
    · omega
    · split <;> omega

theorem pythonRound_le {q : ℚ} {m : ℤ} (h : q ≤ m) : pythonRound q ≤ m := by
  unfold pythonRound
  have hfle : ratFloor q ≤ m := by
    rw [ratFloor_eq]
    exact Int.floor_le_floor h |>.trans_eq (Int.floor_intCast m)
  dsimp only
  split
  · exact hfle
  · rename_i h1
    have hlt : ratFloor q < m := by
      rcases lt_or_eq_of_le hfle with hlt | heq
      · exact hlt
      · exfalso
        rw [ratFloor_eq] at heq
        have : (m : ℚ) ≤ q := by
          rw [← heq]
          exact Int.floor_le q
        have : q = (m : ℚ) := le_antisymm h this
        rw [ratFloor_eq, this] at h1
        simp at h1
    split
    · omega
    · split <;> omega

theorem clamp01_nonneg (q : ℚ) : 0 ≤ clamp01 q := le_max_left 0 _

theorem clamp01_le_one (q : ℚ) : clamp01 q ≤ 1 := by
  unfold clamp01
  rw [max_le_iff]
  exact ⟨zero_le_one, min_le_left 1 q⟩

theorem paginate_pages_ne_nil (ft : Option Str) (vw vh acw lh : ℤ) (r : ℚ) :
    (paginate_current_text ft vw vh acw lh r).pages ≠ [] := by
  unfold paginate_current_text
  cases ft with
  | none => simp
  | some text =>
    by_cases hte : text.isEmpty
    · simp [hte]
    · simp only [hte, Bool.false_eq_true, if_false]
      split <;> simp_all

theorem paginate_idx_le (ft : Option Str) (vw vh acw lh : ℤ) (r : ℚ) :
    (paginate_current_text ft vw vh acw lh r).idx ≤
      (paginate_current_text ft vw vh acw lh r).pages.length - 1 := by
  unfold paginate_current_text
  cases ft with
  | none => simp
  | some text =>
    by_cases hte : text.isEmpty
    · simp [hte]
    · simp only [hte, Bool.false_eq_true, if_false]
      exact Nat.min_le_right _ _

theorem paginate_idx_one (ft : Option Str) (vw vh acw lh : ℤ) (r : ℚ)
    (h : (paginate_current_text ft vw vh acw lh r).pages.length = 1) :
    (paginate_current_text ft vw vh acw lh r).idx = 0 := by
  have := paginate_idx_le ft vw vh acw lh r
  omega

theorem paginate_idx_eq (ft : Option Str) (vw vh acw lh : ℤ) (r : ℚ)
    (h : 1 < (paginate_current_text ft vw vh acw lh r).pages.length) :
    ((paginate_current_text ft vw vh acw lh r).idx : ℤ) =
      pythonRound (clamp01 r *
        ((paginate_current_text ft vw vh acw lh r).pages.length - 1)) := by
  revert h
  unfold paginate_current_text
  cases ft with
  | none => intro h; simp at h
  | some text =>
    by_cases hte : text.isEmpty
    · intro h; simp [hte] at h
    · simp only [hte, Bool.false_eq_true, if_false]
      intro h
      rw [if_neg (by omega)]
      set L := (if (splitLoop text (computeCapacity vw vh acw lh) 0).isEmpty
          then [[]] else splitLoop text (computeCapacity vw vh acw lh) 0).length with hL
      have hq0 : (0:ℚ) ≤ clamp01 r * ((L:ℚ) - 1) := by
        apply mul_nonneg (clamp01_nonneg r)
        have : (1:ℚ) ≤ (L:ℚ) := by exact_mod_cast Nat.le_of_lt h
        linarith
      have hqle : clamp01 r * ((L:ℚ) - 1) ≤ ((L - 1 : ℤ) : ℚ) := by
        push_cast [Nat.cast_sub (by omega : 1 ≤ L)]
        calc clamp01 r * ((L:ℚ) - 1) ≤ 1 * ((L:ℚ) - 1) := by
              apply mul_le_mul_of_nonneg_right (clamp01_le_one r)
              have : (1:ℚ) ≤ (L:ℚ) := by exact_mod_cast Nat.le_of_lt h
              linarith
        _ = (L:ℚ) - 1 := one_mul _
      have hr0 : 0 ≤ pythonRound (clamp01 r * ((L:ℚ) - 1)) :=
        pythonRound_nonneg hq0
      have hrle : pythonRound (clamp01 r * ((L:ℚ) - 1)) ≤ (L:ℤ) - 1 := by
        have := pythonRound_le hqle
        omega
      rw [Nat.min_def, if_pos (by omega)]
      omega

theorem splitPosOf_eq_last_space {text : Str} {capacity i j : ℕ}
    (hj : IsLastSpaceIn text (i + capacity * 4 / 5)
      (min (i + capacity) text.length) j)
    (hij : i < j) : splitPosOf text capacity i = j := by
  obtain ⟨ha, hb, hsp, hmax⟩ := hj
  have hnj : j < text.length := by
    have := List.get?_eq_some.mp hsp
    exact this.1
  have hmin : min text.length (i + capacity * 4 / 5) = i + capacity * 4 / 5 := by
    omega
  unfold splitPosOf
  rw [hmin]
  cases hrf : rfindSpace text (i + capacity * 4 / 5)
      (min (i + capacity) text.length) with
  | none =>
    exact absurd hsp (rfindSpace_none hrf j ha hb)
  | some p =>
    obtain ⟨hpa, hpb, hpsp, hpmax⟩ := rfindSpace_isLastSpace hrf
    have hpj : p = j := by
      rcases Nat.lt_trichotomy p j with hlt | heq | hgt
      · exact absurd hsp (hpmax j hlt hb)
      · exact heq
      · exact absurd hpsp (hmax p hgt hpb)
    subst hpj
    simp only []
    rw [if_neg (by omega)]

theorem splitPosOf_forced {text : Str} {capacity i : ℕ}
    (h : ∀ j, IsLastSpaceIn text (i + capacity * 4 / 5)
      (min (i + capacity) text.length) j → j ≤ i) :
    splitPosOf text capacity i = min (i + capacity) text.length := by
  unfold splitPosOf
  cases hrf : rfindSpace text (min text.length (i + capacity * 4 / 5))
      (min (i + capacity) text.length) with
  | none => simp only []
  | some p =>
    obtain ⟨hpa, hpb, hpsp, hpmax⟩ := rfindSpace_isLastSpace hrf
    have hple : p ≤ i := by
      apply h
      refine ⟨?_, hpb, hpsp, ?_⟩
      · omega
      · intro k hk hkb
        exact hpmax k hk hkb
    simp only []
    rw [if_pos hple]

theorem filterMap_if_eq {α : Type} (name : α → Bool) (f : α → Option Str)
    (val : α → Str)
    (hf : ∀ x, f x = if (val x).isEmpty then none else some (val x)) :
    ∀ l : List α, l.filterMap (fun x => if name x then f x else none) =
      ((l.filter name).map val).filter (fun t => !t.isEmpty) := by
  intro l
  induction l with
  | nil => rfl
  | cons x xs ih =>
    rw [List.filterMap_cons, List.filter_cons]
    by_cases hname : name x = true
    · rw [hf x]
      by_cases hemp : (val x).isEmpty = true
      · simp [hname, hemp, ih]
      · simp [hname, hemp, ih]
    · have hnf : name x = false := by simpa using hname
      simp [hnf, ih]

theorem filterMap_paragraph (l : List Elem) :
    l.filterMap (fun x =>
        if localName x.tag == nmP then nonemptyText x else none) =
      ((l.filter (fun x => localName x.tag == nmP)).map
          (fun x => pyStrip (elemText x))).filter (fun t => !t.isEmpty) :=
  filterMap_if_eq (fun x => localName x.tag == nmP) nonemptyText
    (fun x => pyStrip (elemText x)) (fun _ => rfl) l

theorem flatMap_paragraphsUnder (bodies : List Elem) :
    bodies.flatMap paragraphsUnder =
      ((bodies.flatMap (fun b =>
          (iterElems b).filter (fun e => localName e.tag == nmP))).map
        (fun e => pyStrip (elemText e))).filter (fun t => !t.isEmpty) := by
  induction bodies with
  | nil => rfl
  | cons b bs ih =>
    simp only [List.flatMap_cons, List.map_append, List.filter_append, ih]
    congr 1
    exact filterMap_paragraph (iterElems b)

theorem parse_full_text_eq (path : Str) (root : Elem) :
    (parse_fb2_book_info path (some root)).full_text = specFullText root := by
  simp only [parse_fb2_book_info, specFullText, bodyParagraphElems]
  rw [flatMap_paragraphsUnder]

theorem parse_title_eq (path : Str) (parsed : Option Elem) :
    (parse_fb2_book_info path parsed).title =
      some (extract_fb2_title path parsed) := by
  cases parsed with
  | none => rfl
  | some root =>
    simp only [parse_fb2_book_info, extract_fb2_title]
    cases hd : findFirstChild root nmDescription with
    | none => simp [hd]
    | some d =>
      cases ht : findFirstChild d nmTitleInfo with
      | none => simp [hd, ht]
      | some ti =>
        cases hb : findFirstChild ti nmBookTitle with
        | none => simp [hd, ht, hb]
        | some bt =>
          cases hn : nonemptyText bt with
          | none => simp [hd, ht, hb, hn]
          | some t => simp [hd, ht, hb, hn]

theorem bind_if_none {α β : Type} (A B : Prop) [Decidable A] [Decidable B]
    (v : α) (F : α → Option β) :
    (if A then none else if B then none else some v).bind F =
      (if A then none else if B then none else F v) := by
  by_cases hA : A
  · simp [hA]
  · by_cases hB : B
    · simp [hA, hB]
    · simp [hA, hB]

theorem bind_if_none1 {α β : Type} (B : Prop) [Decidable B]
    (v : α) (F : α → Option β) :
    (if B then none else some v).bind F = (if B then none else F v) := by
  by_cases hB : B
  · simp [hB]
  · simp [hB]

theorem parse_cover_eq (path : Str) (root : Elem) :
    (parse_fb2_book_info path (some root)).cover_bytes = specCoverImage root := by
  simp only [parse_fb2_book_info, specCoverImage, coverHrefOf, firstBinaryWithId,
    Option.bind_assoc]
  cases hd : findFirstChild root nmDescription with
  | none => simp [hd]
  | some d =>
    cases ht : findFirstChild d nmTitleInfo with
    | none => simp [hd, ht]
    | some ti =>
      cases hcp : findFirstChild ti nmCoverpage with
      | none => simp [hd, ht, hcp]
      | some cp =>
        cases himg : findFirstChild cp nmImage with
        | none => simp [hd, ht, hcp, himg]
        | some img =>
          simp only [hd, ht, hcp, himg, Option.some_bind, Option.bind_assoc]
          cases hh : attrGet img nmHref with
          | none =>
            cases hx : attrGet img nmXlinkHref with
            | none => simp
            | some h => simp only [Option.some_bind]; apply bind_if_none
          | some h =>
            by_cases hhe : h.isEmpty = true
            · simp only [hhe, eq_self_iff_true, if_true]
              cases hx : attrGet img nmXlinkHref with
              | none => simp
              | some h2 => simp only [Option.some_bind]; apply bind_if_none
            · have hf : h.isEmpty = false := by simpa using hhe
              simp only [hf, Bool.false_eq_true, if_false, Option.some_bind]
              apply bind_if_none1

/-! ## Claim theorems -/

/-- C1: for every file path, `parse_fb2_book_info` on a failed parse
returns a record (never raises — the embedding is a total function)
whose title is the file's base name with the extension stripped and
whose every other field is absent or empty. -/
theorem claim_C1_parse_failure (path : Str) :
    parse_fb2_book_info path none =
      { title := some (pyStem path), authors := [], genres := [],
        publisher := none, date := none, lang := none, description := none,
        cover_bytes := none, full_text := none } := rfl

/-- C2 counterexample: the claim says ties round half-up, so ratio 0.5 on
a 10-page set would give index `round(0.5*9) = 5`; the code uses Python's
`round` (ties to even) and lands on index 4.  A 600-character spaceless
text at capacity 60 (viewport 20×3, unit font metrics) yields exactly 10
pages; Mathlib's `round` (half-up) of 0.5*9 is 5, yet the code's index
is 4. -/
theorem claim_C2_counterexample :
    (paginate_current_text (some (List.replicate 600 'a')) 20 3 1 1
        (1/2)).pages.length = 10 ∧
    (paginate_current_text (some (List.replicate 600 'a')) 20 3 1 1
        (1/2)).idx = 4 ∧
    round ((1/2 : ℚ) * ((10:ℚ) - 1)) = (5:ℤ) ∧
    ((paginate_current_text (some (List.replicate 600 'a')) 20 3 1 1
        (1/2)).idx : ℤ) ≠ round ((1/2 : ℚ) * ((10:ℚ) - 1)) := by
  have hlen : (paginate_current_text (some (List.replicate 600 'a')) 20 3 1 1
      (1/2)).pages.length = 10 := by decide
  have hidx : ((paginate_current_text (some (List.replicate 600 'a')) 20 3 1 1
      (1/2)).idx : ℤ) =
      pythonRound (clamp01 (1/2) * (((10:ℕ) : ℚ) - 1)) := by
    have h := paginate_idx_eq (some (List.replicate 600 'a')) 20 3 1 1 (1/2)
      (by rw [hlen]; omega)
    rw [hlen] at h
    exact h
  have hc : clamp01 (1/2 : ℚ) = 1/2 := by
    unfold clamp01
    rw [min_eq_right (by norm_num), max_eq_right (by norm_num)]
  have hq : clamp01 (1/2 : ℚ) * (((10:ℕ) : ℚ) - 1) = 9/2 := by
    rw [hc]; norm_num
  have hpr : pythonRound ((9:ℚ)/2) = 4 := by
    unfold pythonRound
    rw [ratFloor_eq]
    norm_num
  rw [hq, hpr] at hidx
  have hround : round ((1/2 : ℚ) * ((10:ℚ) - 1)) = (5:ℤ) := by
    rw [round_eq]
    norm_num
  refine ⟨hlen, by omega, hround, by omega⟩

/-- C2 amended: the derived index is `int(round(ratio * (pageCount-1)))`
with Python's `round` — nearest integer, ties to even (so ratio 0.5 gives
index 4 on a 10-page set and 10 on a 20-page set) — after clamping the
ratio into [0,1], and the result lies in `[0, pageCount-1]`; when
`pageCount == 1` the index is 0 and the reported ratio 0.0;
re-pagination after a viewport change derives the index from the stored
ratio, never from the previous page number. -/
theorem claim_C2_amended :
    (∀ (ft : Option Str) (vw vh acw lh : ℤ) (r : ℚ),
      ((paginate_current_text ft vw vh acw lh r).pages.length = 1 →
        (paginate_current_text ft vw vh acw lh r).idx = 0 ∧
        shownProgress (paginate_current_text ft vw vh acw lh r) = 0) ∧
      (1 < (paginate_current_text ft vw vh acw lh r).pages.length →
        ((paginate_current_text ft vw vh acw lh r).idx : ℤ) =
          pythonRound (clamp01 r *
            ((paginate_current_text ft vw vh acw lh r).pages.length - 1)) ∧
        (paginate_current_text ft vw vh acw lh r).idx ≤
          (paginate_current_text ft vw vh acw lh r).pages.length - 1)) ∧
    (paginate_current_text (some (List.replicate 600 'a')) 20 3 1 1
        (1/2)).idx = 4 ∧
    (paginate_current_text (some (List.replicate 1200 'a')) 20 3 1 1
        (1/2)).idx = 10 ∧
    (∀ (s₁ s₂ : ReaderState) (vw vh acw lh : ℤ),
      s₁.fullText = s₂.fullText → s₁.storedProgress = s₂.storedProgress →
      on_reader_resized s₁ vw vh acw lh = on_reader_resized s₂ vw vh acw lh) := by
  refine ⟨?_, ?_, ?_, ?_⟩
  · intro ft vw vh acw lh r
    refine ⟨?_, ?_⟩
    · intro h1
      refine ⟨paginate_idx_one ft vw vh acw lh r h1, ?_⟩
      unfold shownProgress
      rw [if_pos (by omega)]
    · intro h1
      exact ⟨paginate_idx_eq ft vw vh acw lh r h1,
        paginate_idx_le ft vw vh acw lh r⟩
  · have hlen : (paginate_current_text (some (List.replicate 600 'a'))
        20 3 1 1 (1/2)).pages.length = 10 := by decide
    have h := paginate_idx_eq (some (List.replicate 600 'a')) 20 3 1 1 (1/2)
      (by rw [hlen]; omega)
    rw [hlen] at h
    have hc : clamp01 (1/2 : ℚ) = 1/2 := by
      unfold clamp01
      rw [min_eq_right (by norm_num), max_eq_right (by norm_num)]
    have hq : clamp01 (1/2 : ℚ) * (((10:ℕ) : ℚ) - 1) = 9/2 := by
      rw [hc]; norm_num
    have hpr : pythonRound ((9:ℚ)/2) = 4 := by
      unfold pythonRound
      rw [ratFloor_eq]
      norm_num
    rw [hq, hpr] at h
    omega
  · have hlen : (paginate_current_text (some (List.replicate 1200 'a'))
        20 3 1 1 (1/2)).pages.length = 20 := by decide
    have h := paginate_idx_eq (some (List.replicate 1200 'a')) 20 3 1 1 (1/2)
      (by rw [hlen]; omega)
    rw [hlen] at h
    have hc : clamp01 (1/2 : ℚ) = 1/2 := by
      unfold clamp01
      rw [min_eq_right (by norm_num), max_eq_right (by norm_num)]
    have hq : clamp01 (1/2 : ℚ) * (((20:ℕ) : ℚ) - 1) = 19/2 := by
      rw [hc]; norm_num
    have hpr : pythonRound ((19:ℚ)/2) = 10 := by
      unfold pythonRound
      rw [ratFloor_eq]
      norm_num
    rw [hq, hpr] at h
    omega
  · intro s₁ s₂ vw vh acw lh h1 h2
    unfold on_reader_resized
    rw [h1, h2]

/-- C2 amended, witness: a one-page book reports index 0 and ratio 0. -/
theorem claim_C2_witness :
    (paginate_current_text (some ['a']) 20 3 1 1 0).idx = 0 ∧
    shownProgress (paginate_current_text (some ['a']) 20 3 1 1 0) = 0 :=
  (claim_C2_amended.1 (some ['a']) 20 3 1 1 0).1 (by decide)

/-- C3: the splitting loop: while `i < length(text)`, with
`end = min(i + capacity, length)`, the page boundary is the last space in
`[i + floor(capacity*0.8), end)` when that space lies strictly beyond
`i`, else exactly `end` (forced break); the loop emits
`trim(text[i:splitPos])` and advances `i` to `splitPos`.  In particular a
1000-character spaceless text at capacity 100 (viewport 20×5, unit
metrics) is split into pages of length exactly 100. -/
theorem claim_C3_splitting :
    (∀ (text : Str) (capacity i : ℕ), 0 < capacity → i < text.length →
      (splitLoop text capacity i =
        pyStrip ((text.drop i).take (splitPosOf text capacity i - i)) ::
          splitLoop text capacity (splitPosOf text capacity i)) ∧
      (∀ j, IsLastSpaceIn text (i + capacity * 4 / 5)
          (min (i + capacity) text.length) j → i < j →
        splitPosOf text capacity i = j) ∧
      ((∀ j, IsLastSpaceIn text (i + capacity * 4 / 5)
          (min (i + capacity) text.length) j → j ≤ i) →
        splitPosOf text capacity i = min (i + capacity) text.length)) ∧
    (∀ pg ∈ (paginate_current_text (some (List.replicate 1000 'a'))
        20 5 1 1 0).pages, pg.length = 100) := by
  constructor
  · intro text capacity i hc hi
    refine ⟨splitLoop_step hi hc, ?_, ?_⟩
    · intro j hj hij
      exact splitPosOf_eq_last_space hj hij
    · intro hforced
      exact splitPosOf_forced hforced
  · decide

/-- C3 witness: one concrete loop step on the text `aaaa bb` with
capacity 5. -/
theorem claim_C3_witness :
    splitLoop "aaaa bb".toList 5 0 =
      pyStrip (("aaaa bb".toList.drop 0).take
        (splitPosOf "aaaa bb".toList 5 0 - 0)) ::
        splitLoop "aaaa bb".toList 5 (splitPosOf "aaaa bb".toList 5 0) :=
  (claim_C3_splitting.1 "aaaa bb".toList 5 0 (by decide) (by decide)).1

/-- C4: for positive viewport metrics the capacity is
`max(20, w // avgCharWidth) * max(3, h // lineHeight)`, hence at least 60
and positive; the splitter's chosen split position strictly exceeds `i`
on every iteration, so the loop terminates — the embedding is total and
emits at most `length(text)` pages. -/
theorem claim_C4_capacity :
    ∀ (vw vh acw lh : ℤ), 0 < vw → 0 < vh → 0 < acw → 0 < lh →
      computeCapacity vw vh acw lh =
        max 20 (vw.toNat / acw.toNat) * max 3 (vh.toNat / lh.toNat) ∧
      60 ≤ computeCapacity vw vh acw lh ∧
      (∀ (text : Str) (i : ℕ), i < text.length →
        i < splitPosOf text (computeCapacity vw vh acw lh) i) ∧
      (∀ text : Str,
        (splitLoop text (computeCapacity vw vh acw lh) 0).length ≤
          text.length) := by
  intro vw vh acw lh h1 h2 h3 h4
  have e1 : (max 1 vw).toNat = vw.toNat := by omega
  have e2 : (max 1 vh).toNat = vh.toNat := by omega
  have e3 : (max 1 acw).toNat = acw.toNat := by omega
  have e4 : (max 1 lh).toNat = lh.toNat := by omega
  have hcap : computeCapacity vw vh acw lh =
      max 20 (vw.toNat / acw.toNat) * max 3 (vh.toNat / lh.toNat) := by
    unfold computeCapacity
    rw [e1, e2, e3, e4]
  have hge : 60 ≤ computeCapacity vw vh acw lh := by
    rw [hcap]
    have g1 : 20 ≤ max 20 (vw.toNat / acw.toNat) := le_max_left _ _
    have g2 : 3 ≤ max 3 (vh.toNat / lh.toNat) := le_max_left _ _
    calc (60:ℕ) = 20 * 3 := rfl
    _ ≤ max 20 (vw.toNat / acw.toNat) * max 3 (vh.toNat / lh.toNat) :=
        Nat.mul_le_mul g1 g2
  refine ⟨hcap, hge, ?_, ?_⟩
  · intro text i hi
    exact splitPosOf_gt hi (by omega)
  · intro text
    have := splitLoop_count_le text (computeCapacity vw vh acw lh)
      (text.length - 0 + 1) 0
    unfold splitLoop
    omega

/-- C4 witness: the minimal positive metrics give capacity
`max 20 20 * max 3 3 = 60`. -/
theorem claim_C4_witness :
    computeCapacity 20 3 1 1 =
      max 20 (Int.toNat 20 / Int.toNat 1) * max 3 (Int.toNat 3 / Int.toNat 1) ∧
    60 ≤ computeCapacity 20 3 1 1 :=
  ⟨(claim_C4_capacity 20 3 1 1 (by decide) (by decide) (by decide)
      (by decide)).1,
   (claim_C4_capacity 20 3 1 1 (by decide) (by decide) (by decide)
      (by decide)).2.1⟩

/-- C5 counterexample: the claim says every `PageSet` is a sequence of
*non-empty* page texts; but a non-empty all-whitespace book (the single
character `' '`) paginates to the single *empty* page — `strip` of an
all-space span is empty and the page is emitted as-is. -/
theorem claim_C5_counterexample :
    (paginate_current_text (some [' ']) 20 3 1 1 0).pages = [[]] ∧
    ([' '] : Str) ≠ [] := by
  constructor
  · decide
  · decide

/-- C5 amended: every `PageSet` produced by pagination is an ordered
sequence of page texts — possibly empty strings, since an all-whitespace
span trims to the empty page — of length at least 1, with the current
index in `[0, length-1]`; an empty book (absent or empty full text)
yields exactly one empty page at index 0. -/
theorem claim_C5_amended :
    ∀ (ft : Option Str) (vw vh acw lh : ℤ) (r : ℚ),
      1 ≤ (paginate_current_text ft vw vh acw lh r).pages.length ∧
      (paginate_current_text ft vw vh acw lh r).idx ≤
        (paginate_current_text ft vw vh acw lh r).pages.length - 1 ∧
      ((ft = none ∨ ft = some []) →
        paginate_current_text ft vw vh acw lh r = ⟨[[]], 0⟩) := by
  intro ft vw vh acw lh r
  refine ⟨?_, paginate_idx_le ft vw vh acw lh r, ?_⟩
  · have h := paginate_pages_ne_nil ft vw vh acw lh r
    have := List.length_pos.mpr h
    omega
  · intro hcase
    rcases hcase with hn | he
    · rw [hn]
      rfl
    · rw [he]
      rfl

/-- C5 witness: the absent-text book is exactly one empty page. -/
theorem claim_C5_witness :
    paginate_current_text none 20 3 1 1 0 = ⟨[[]], 0⟩ :=
  (claim_C5_amended none 20 3 1 1 0).2.2 (Or.inl rfl)

/-- C6 counterexample: the claim joins the trimmed text of *every*
descendant `p` element; the code drops paragraphs that trim to empty.  On
a body holding a whitespace-only `p` and a `p` "A", the code yields "A"
while the claim's join yields "\n\nA". -/
theorem claim_C6_counterexample :
    (parse_fb2_book_info "b.fb2".toList (some emptyParaDoc)).full_text =
      some "A".toList ∧
    claimedFullText emptyParaDoc = some "\n\nA".toList ∧
    (parse_fb2_book_info "b.fb2".toList (some emptyParaDoc)).full_text ≠
      claimedFullText emptyParaDoc := by
  refine ⟨by decide, by decide, by decide⟩

/-- C6 amended: for every successfully parsed document, `fullText` is the
blank-line join of the *non-empty* trimmed texts of every descendant `p`
element of every direct body child of the root, in document order across
bodies, and absent (not the empty string) when no non-empty paragraph
exists; two bodies with paragraphs "A","B" and "C","D" yield exactly
"A\n\nB\n\nC\n\nD". -/
theorem claim_C6_amended :
    (∀ (path : Str) (root : Elem),
      (parse_fb2_book_info path (some root)).full_text = specFullText root) ∧
    (parse_fb2_book_info "b.fb2".toList (some twoBodyDoc)).full_text =
      some "A\n\nB\n\nC\n\nD".toList := by
  refine ⟨parse_full_text_eq, by decide⟩

/-- C7 counterexample: the claim strips *a* (one) leading `#` from the
image reference; the code's `lstrip("#")` strips every leading `#`.  On
a reference `##c` with a binary whose id is `#c` and content `QQ==`,
the claim's procedure resolves the cover to the byte `65`, while the
code finds no binary with id `c` and leaves the cover absent. -/
theorem claim_C7_counterexample :
    (parse_fb2_book_info "b.fb2".toList (some doubleHashDoc)).cover_bytes =
      none ∧
    claimedCoverImage doubleHashDoc = some [65] := by
  refine ⟨by decide, by decide⟩

/-- C7 amended: the extractor reads the reference from the unprefixed or
XLink `href` of `title-info/coverpage/image`, requires it non-empty,
strips *all* leading `#` characters, requires the remainder non-empty,
resolves it against the first `binary` in document order whose `id`
equals it, and decodes that element's trimmed base64 text when non-empty;
a missing reference, a missing matching binary, an empty binary text, or
a base64 decode failure leaves the cover absent — the embedding is a
total function, never an error. -/
theorem claim_C7_amended :
    ∀ (path : Str) (root : Elem),
      (parse_fb2_book_info path (some root)).cover_bytes =
        specCoverImage root ∧
      (coverHrefOf root = none →
        (parse_fb2_book_info path (some root)).cover_bytes = none) ∧
      (∀ h, coverHrefOf root = some h →
        firstBinaryWithId root (h.dropWhile (fun c => c == '#')) = none →
        (parse_fb2_book_info path (some root)).cover_bytes = none) := by
  intro path root
  refine ⟨parse_cover_eq path root, ?_, ?_⟩
  · intro hnone
    rw [parse_cover_eq path root]
    unfold specCoverImage
    rw [hnone]
    rfl
  · intro h hh hfb
    rw [parse_cover_eq path root]
    unfold specCoverImage
    rw [hh]
    simp only [Option.some_bind]
    by_cases hhe : h = []
    · simp [hhe]
    · have hc1 : h.isEmpty = false := by
        cases h with
        | nil => exact absurd rfl hhe
        | cons a l => rfl
      rw [if_neg (by simp [hc1])]
      by_cases hcid : ∀ x ∈ h, x = '#'
      · have hc2 : (h.dropWhile (fun c => c == '#')).isEmpty = true := by
          rw [List.isEmpty_iff, List.dropWhile_eq_nil_iff]
          intro x hx
          simpa using hcid x hx
        rw [if_pos (by simp [hc2])]
      · have hc2 : (h.dropWhile (fun c => c == '#')).isEmpty = false := by
          by_contra hT
          have hT2 : (h.dropWhile (fun c => c == '#')).isEmpty = true := by
            cases hB : (h.dropWhile (fun c => c == '#')).isEmpty with
            | false => exact absurd hB hT
            | true => rfl
          rw [List.isEmpty_iff, List.dropWhile_eq_nil_iff] at hT2
          exact hcid (fun x hx => by simpa using hT2 x hx)
        rw [if_neg (by simp [hc2]), hfb]
        rfl

/-- C7 witness: a document without any cover reference has an absent
cover. -/
theorem claim_C7_witness :
    (parse_fb2_book_info "b.fb2".toList (some twoBodyDoc)).cover_bytes =
      none :=
  (claim_C7_amended "b.fb2".toList twoBodyDoc).2.1 (by decide)

/-- C8: `go_to_page` clamps any integer index into `[0, pageCount-1]` and
the reported ratio is `index/(pageCount-1)` (0.0 for a single page);
`go_next_page`/`go_prev_page` are exactly `go_to_page(current ± 1)` and
are no-ops at the last and first page; out-of-range indices are always
clamped, never rejected (the function is total). -/
theorem claim_C8_navigation :
    ∀ (ps : PageSet) (k : ℤ), ps.pages ≠ [] →
      (go_to_page ps k).pages = ps.pages ∧
      ((go_to_page ps k).idx : ℤ) =
        max 0 (min k ((ps.pages.length : ℤ) - 1)) ∧
      (go_to_page ps k).idx ≤ ps.pages.length - 1 ∧
      shownProgress (go_to_page ps k) =
        (if ps.pages.length = 1 then 0
         else ((go_to_page ps k).idx : ℚ) / ((ps.pages.length : ℚ) - 1)) ∧
      go_next_page ps = go_to_page ps ((ps.idx : ℤ) + 1) ∧
      go_prev_page ps = go_to_page ps ((ps.idx : ℤ) - 1) ∧
      (ps.idx = ps.pages.length - 1 → go_next_page ps = ps) ∧
      (ps.idx = 0 → go_prev_page ps = ps) := by
  intro ps k hne
  have hlen : 1 ≤ ps.pages.length := by
    have := List.length_pos.mpr hne
    omega
  have hemp : ps.pages.isEmpty = false := by
    cases hps : ps.pages with
    | nil => exact absurd hps hne
    | cons a l => rfl
  have hgo : ∀ m : ℤ, go_to_page ps m =
      ⟨ps.pages, (max 0 (min m ((ps.pages.length : ℤ) - 1))).toNat⟩ := by
    intro m
    unfold go_to_page
    rw [hemp]
    rfl
  have hidx : ∀ m : ℤ, ((go_to_page ps m).idx : ℤ) =
      max 0 (min m ((ps.pages.length : ℤ) - 1)) := by
    intro m
    rw [hgo m]
    have : (0:ℤ) ≤ max 0 (min m ((ps.pages.length : ℤ) - 1)) :=
      le_max_left 0 _
    simp only []
    omega
  refine ⟨by rw [hgo k], hidx k, ?_, ?_, rfl, rfl, ?_, ?_⟩
  · have := hidx k
    omega
  · unfold shownProgress
    rw [hgo k]
    dsimp only
    by_cases h1 : ps.pages.length = 1
    · rw [if_pos (by omega), if_pos h1]
    · rw [if_neg (by omega), if_neg h1]
      have h2 : (0 ⊔ k ⊓ ((ps.pages.length : ℤ) - 1)).toNat ≤
          ps.pages.length - 1 := by omega
      have h3 : (((0 ⊔ k ⊓ ((ps.pages.length : ℤ) - 1)).toNat : ℕ) : ℚ) ≤
          (ps.pages.length : ℚ) - 1 := by
        have h4 : ((ps.pages.length - 1 : ℕ) : ℚ) =
            (ps.pages.length : ℚ) - 1 := by
          push_cast [Nat.cast_sub hlen]
          ring
        rw [← h4]
        exact_mod_cast h2
      rw [min_eq_left h3]
  · intro hlast
    unfold go_next_page
    rw [hgo ((ps.idx : ℤ) + 1)]
    cases hps : ps with
    | mk pgs i =>
      simp only [PageSet.mk.injEq, true_and]
      rw [hps] at hlast hlen
      simp only at hlast hlen ⊢
      omega
  · intro hfirst
    unfold go_prev_page
    rw [hgo ((ps.idx : ℤ) - 1)]
    cases hps : ps with
    | mk pgs i =>
      simp only [PageSet.mk.injEq, true_and]
      rw [hps] at hfirst hlen
      simp only at hfirst hlen ⊢
      omega

/-- C8 witness: on a two-page set at the last page, requesting page 5 is
clamped to index 1 and advancing is a no-op. -/
theorem claim_C8_witness :
    ((go_to_page ⟨[['a'], ['b']], 1⟩ 5).idx : ℤ) =
      max 0 (min 5 (((([['a'], ['b']] : List Str)).length : ℤ) - 1)) ∧
    go_next_page ⟨[['a'], ['b']], 1⟩ = ⟨[['a'], ['b']], 1⟩ :=
  ⟨(claim_C8_navigation ⟨[['a'], ['b']], 1⟩ 5 (by decide)).2.1,
   (claim_C8_navigation ⟨[['a'], ['b']], 1⟩ 5 (by decide)).2.2.2.2.2.2.1
     (by decide)⟩

/-- C9: the fast title extractor agrees with the full parser's title on
every input — the trimmed `description/title-info/book-title` text when
non-empty, else the filename stem — parse failures included. -/
theorem claim_C9_title_equiv :
    ∀ (path : Str) (parsed : Option Elem),
      some (extract_fb2_title path parsed) =
        (parse_fb2_book_info path parsed).title :=
  fun path parsed => (parse_title_eq path parsed).symm

/-- C10: for positive viewport metrics, every page emitted by pagination
has length at most the computed capacity: each raw segment spans at most
`capacity` characters and trimming only shortens it. -/
theorem claim_C10_page_bound :
    ∀ (ft : Option Str) (vw vh acw lh : ℤ) (r : ℚ),
      0 < vw → 0 < vh → 0 < acw → 0 < lh →
      ∀ pg ∈ (paginate_current_text ft vw vh acw lh r).pages,
        pg.length ≤ computeCapacity vw vh acw lh := by
  intro ft vw vh acw lh r h1 h2 h3 h4 pg hpg
  revert hpg
  unfold paginate_current_text
  cases ft with
  | none =>
    intro hpg
    simp at hpg
    simp [hpg]
  | some text =>
    by_cases hte : text.isEmpty
    · simp only [hte, if_true]
      intro hpg
      simp at hpg
      simp [hpg]
    · simp only [hte, Bool.false_eq_true, if_false]
      intro hpg
      by_cases hnil : (splitLoop text (computeCapacity vw vh acw lh) 0).isEmpty = true
      · rw [if_pos hnil] at hpg
        simp at hpg
        simp [hpg]
      · rw [if_neg hnil] at hpg
        exact splitLoop_page_length text (computeCapacity vw vh acw lh)
          (text.length - 0 + 1) 0 pg hpg

/-- C10 witness: the single page of the two-character book `ab` fits the
minimal capacity 60. -/
theorem claim_C10_witness :
    (['a', 'b'] : Str).length ≤ computeCapacity 20 3 1 1 :=
  claim_C10_page_bound (some ['a', 'b']) 20 3 1 1 0 (by decide) (by decide)
    (by decide) (by decide) ['a', 'b'] (by decide)
